import Mathlib

/-!
# Dorm duty bot: rotation resolver and swap coordinator

Shallow embedding of the duty-rotation core of `main.py`:

* data model: the persisted JSON state (`State`), with dates as integer
  day numbers (Python `datetime.date` arithmetic is day-based; one
  calendar day = one unit, `timedelta(days=7)` = `+ 7`);
* `get_duty_member`: the weekly replay loop that resolves who is on duty
  for a date (holidays freeze the pointer, overrides consume a turn,
  absent members are skipped);
* `accept_swap`: the state mutation performed by `volunteer_callback`
  when a volunteer accepts a swap offer (override recorded, penalty
  incremented for the absent member).

Python dicts are embedded as association lists with unique keys in
practice; `lookupAL` / `setAL` / `bumpAL` model dict read, dict write
(in-place update of an existing key, append of a new key) and the
`+= 1` of an existing entry.
-/

set_option maxHeartbeats 1000000

namespace DormDuty

/-- One entry of `state["members"]`: `{"id": ..., "label": ...}`. -/
structure Member where
  id : Int
  label : String
deriving DecidableEq, Repr

/-- One interval record `{"from": ..., "to": ...}` with dates as day
numbers; `day_in_range` treats both ends as inclusive. -/
structure DateRange where
  fromDay : Int
  toDay : Int
deriving DecidableEq, Repr

/-- The full persisted snapshot (`schedule_data.json` / `DEFAULT_STATE`). -/
structure State where
  start_date : Int
  members : List Member
  penalties : List (Int × Nat)
  overrides : List (Int × Int)
  global_holidays : List DateRange
  away_ranges : List (Int × List DateRange)
  notify_chats : List Int
deriving DecidableEq, Repr

/-- Dict read: first binding of key `k`, as Python `d.get(k)` /
`d[k]` on a dict (keys are unique in any dict-built list). -/
def lookupAL {α : Type} (k : Int) : List (Int × α) → Option α
  | [] => none
  | p :: rest => if p.1 = k then some p.2 else lookupAL k rest

/-- Dict write `d[k] = v`: replaces the binding in place when the key
exists, appends a fresh binding at the end otherwise (Python dict
insertion-order semantics). -/
def setAL {α : Type} (k : Int) (v : α) : List (Int × α) → List (Int × α)
  | [] => [(k, v)]
  | p :: rest => if p.1 = k then (k, v) :: rest else p :: setAL k v rest

/-- Dict increment `d[k] += 1` on the first binding of `k`. -/
def bumpAL (k : Int) : List (Int × Nat) → List (Int × Nat)
  | [] => []
  | p :: rest => if p.1 = k then (p.1, p.2 + 1) :: rest else p :: bumpAL k rest

/-- `get_member_by_id`: linear scan of `state["members"]` for a matching
`id`; `none` when the id is not (or no longer) in the list. -/
def get_member_by_id (user_id : Int) (st : State) : Option Member :=
  st.members.find? (fun m => m.id == user_id)

/-- `get_member_by_label`: linear scan for a matching `label`. -/
def get_member_by_label (label : String) (st : State) : Option Member :=
  st.members.find? (fun m => m.label == label)

/-- `ensure_penalty_entry`: `state["penalties"].setdefault(pid, 0)` —
creates the entry at 0 when missing, otherwise leaves the ledger alone. -/
def ensure_penalty_entry (user_id : Int) (st : State) : State :=
  if (lookupAL user_id st.penalties).isSome then st
  else { st with penalties := st.penalties ++ [(user_id, 0)] }

/-- `day_in_range`: inclusive containment `start <= d <= end`. -/
def day_in_range (d : Int) (r : DateRange) : Bool :=
  decide (r.fromDay ≤ d) && decide (d ≤ r.toDay)

/-- `is_global_holiday`: `d` lies inside some interval of
`state["global_holidays"]`. -/
def is_global_holiday (d : Int) (st : State) : Bool :=
  st.global_holidays.any (fun r => day_in_range d r)

/-- `is_member_away_on`: `d` lies inside some interval of
`state["away_ranges"][str(user_id)]` (missing key = empty list). -/
def is_member_away_on (user_id : Int) (d : Int) (st : State) : Bool :=
  ((lookupAL user_id st.away_ranges).getD []).any (fun r => day_in_range d r)

/-- The inner `while tried < len(members)` scan of `get_duty_member`:
starting at index `idx` and trying at most `tried` candidates (the
caller passes `len(members)`), find the first member not away on `d`;
returns the member together with the new pointer `(idx + 1) % n`. -/
def scan_away (st : State) (d : Int) : Nat → Nat → Option (Member × Nat)
  | _, 0 => none
  | idx, tried + 1 =>
    match st.members[idx]? with
    | none => none
    | some candidate =>
      if is_member_away_on candidate.id d st then
        scan_away st d ((idx + 1) % st.members.length) tried
      else
        some (candidate, (idx + 1) % st.members.length)

/-- One iteration of the replay loop body of `get_duty_member` at date
`current` with pointer `pos`: returns the member assigned this cycle
(possibly `none`) and the pointer after the cycle.
Branch order as in the source: global holiday (pointer frozen), then
override (pointer advances by one regardless of the named id), then the
absence scan. -/
def duty_step (st : State) (pos : Nat) (current : Int) : Option Member × Nat :=
  if is_global_holiday current st then
    (none, pos)
  else
    match lookupAL current st.overrides with
    | some override_id =>
        (get_member_by_id override_id st, (pos + 1) % st.members.length)
    | none =>
        match scan_away st current pos st.members.length with
        | some r => (some r.1, r.2)
        | none => (none, pos)

/-- The `while current <= day` loop of `get_duty_member`.  `current`
advances by 7 each iteration, so the loop runs at most
`(day - start).toNat + 1` times; `fuel` is any bound on the remaining
iterations (the wrapper passes one that always suffices).  Returns the
assignment of the cycle whose date equals `day`, or `none` when the loop
exits with `current` past `day` (off-cadence date). -/
def duty_loop (st : State) (day : Int) : Nat → Int → Nat → Option Member
  | _, _, 0 => none
  | pos, current, fuel + 1 =>
    if current ≤ day then
      let r := duty_step st pos current
      if current = day then r.1
      else duty_loop st day r.2 (current + 7) fuel
    else none

/-- `get_duty_member(day, state)`: `none` for an empty member list or a
date before `start_date`; otherwise replay the rotation week by week
from `start_date` with pointer 0. -/
def get_duty_member (day : Int) (st : State) : Option Member :=
  if st.members.isEmpty then none
  else if day < st.start_date then none
  else duty_loop st day 0 st.start_date ((day - st.start_date).toNat + 1)

/-- Pointer value after running `k` cycles of the replay loop starting
from pointer `pos` at date `current`. -/
def run_from (st : State) : Nat → Int → Nat → Nat
  | pos, _, 0 => pos
  | pos, current, k + 1 => run_from st (duty_step st pos current).2 (current + 7) k

/-- Pointer value just before the cycle at `start_date + 7*k` when
replaying from the start, i.e. the loop variable `pos` of
`get_duty_member` on entry to that iteration. -/
def run_pos (st : State) (k : Nat) : Nat :=
  run_from st 0 st.start_date k

/-- State-threading version of the replay loop: the snapshot read by one
iteration is the snapshot handed to the next, and the pair returned
carries the snapshot as left behind by the call.  The loop body of the
source only reads `state`, so the thread is the identity — which is
exactly what the purity claim asserts and `get_duty_member_tr_pure`
proves. -/
def duty_loop_tr (day : Int) : Nat → Int → Nat → State → Option Member × State
  | _, _, 0, st => (none, st)
  | pos, current, fuel + 1, st =>
    if current ≤ day then
      let r := duty_step st pos current
      if current = day then (r.1, st)
      else duty_loop_tr day r.2 (current + 7) fuel st
    else (none, st)

/-- State-threading version of `get_duty_member`: result plus the
snapshot as it stands after the call. -/
def get_duty_member_tr (day : Int) (st : State) : Option Member × State :=
  if st.members.isEmpty then (none, st)
  else if day < st.start_date then (none, st)
  else duty_loop_tr day 0 st.start_date ((day - st.start_date).toNat + 1) st

/-- Outcome of `volunteer_callback`'s state mutation. -/
inductive SwapOutcome where
  | notMember : SwapOutcome
  | conflict : SwapOutcome
  | accepted : SwapOutcome
deriving DecidableEq, Repr

/-- The state mutation of `volunteer_callback` (acceptance of a swap
offer `volunteer|date|absent_id`): reject a volunteer who is not in
`members`; reject when an override for the date already exists (first
acceptance wins, no mutation); otherwise record
`overrides[date] = volunteer_id`, ensure a penalty entry for the absent
member and increment it by one.  Rejections return the snapshot
untouched. -/
def accept_swap (st : State) (duty_date : Int) (volunteer_id : Int)
    (absent_id : Int) : SwapOutcome × State :=
  match get_member_by_id volunteer_id st with
  | none => (.notMember, st)
  | some _ =>
    match lookupAL duty_date st.overrides with
    | some _ => (.conflict, st)
    | none =>
      let st1 := { st with overrides := setAL duty_date volunteer_id st.overrides }
      let st2 := ensure_penalty_entry absent_id st1
      let st3 := { st2 with penalties := bumpAL absent_id st2.penalties }
      (.accepted, st3)

/-- Day number of a civil date (days since 1970-01-01, negative before),
matching Python `datetime.date` subtraction; used to state the spec's
concrete examples with real calendar dates. -/
def daysFromCivil (y m d : Int) : Int :=
  let yy := if m ≤ 2 then y - 1 else y
  let era := (if 0 ≤ yy then yy else yy - 399) / 400
  let yoe := yy - era * 400
  let mp := if 2 < m then m - 3 else m + 9
  let doy := (153 * mp + 2) / 5 + d - 1
  let doe := yoe * 365 + yoe / 4 - yoe / 100 + doy
  era * 146097 + doe - 719468

/-! ## Example configurations (the spec's running example) -/

/-- Member `A` of the spec's example. -/
def memA : Member := { id := 1, label := "A" }

/-- Member `B` of the spec's example. -/
def memB : Member := { id := 2, label := "B" }

/-- Member `C` of the spec's example. -/
def memC : Member := { id := 3, label := "C" }

/-- The spec's example config: `start_date = 2025-12-01`,
`members = [A, B, C]`, no holidays/absences/overrides. -/
def exRotation : State :=
  { start_date := daysFromCivil 2025 12 1
    members := [memA, memB, memC]
    penalties := []
    overrides := []
    global_holidays := []
    away_ranges := []
    notify_chats := [] }

/-- The example config with a one-day global holiday on 2025-12-08. -/
def exHoliday : State :=
  { exRotation with
    global_holidays :=
      [{ fromDay := daysFromCivil 2025 12 8, toDay := daysFromCivil 2025 12 8 }] }

/-- The example config with member `B` away on 2025-12-08. -/
def exAway : State :=
  { exRotation with
    away_ranges :=
      [(2, [{ fromDay := daysFromCivil 2025 12 8, toDay := daysFromCivil 2025 12 8 }])] }

/-- The example config with an override for 2025-12-08 that names id 99,
an id that does not occur in `members` (a dangling reference). -/
def exDangling : State :=
  { exRotation with overrides := [(daysFromCivil 2025 12 8, 99)] }

/-- The example config with an override for 2025-12-08 naming member `C`. -/
def exOverrideC : State :=
  { exRotation with overrides := [(daysFromCivil 2025 12 8, 3)] }

/-- Two members, both away on the start date: an all-absent week. -/
def exAllAway : State :=
  { start_date := 0
    members := [memA, memB]
    penalties := []
    overrides := []
    global_holidays := []
    away_ranges :=
      [(1, [{ fromDay := 0, toDay := 0 }]), (2, [{ fromDay := 0, toDay := 0 }])]
    notify_chats := [] }

/-- A config with no members at all. -/
def exEmpty : State :=
  { start_date := 0
    members := []
    penalties := []
    overrides := []
    global_holidays := []
    away_ranges := []
    notify_chats := [] }

/-! ## Replay-loop lemmas -/

/-- One-cycle unfolding of `run_from` at the front. -/
theorem run_from_unfold (st : State) (pos : Nat) (current : Int) (k : Nat) :
    run_from st pos current (k + 1) =
      run_from st (duty_step st pos current).2 (current + 7) k := rfl

/-- Peeling the last cycle off a `run_from` replay: the pointer after
`k + 1` cycles is the pointer after `k` cycles pushed through one more
`duty_step` at the date of cycle `k`. -/
theorem run_from_succ (st : State) :
    ∀ (k pos : Nat) (current : Int), run_from st pos current (k + 1) =
      (duty_step st (run_from st pos current k) (current + 7 * k)).2 := by
  intro k
  induction k with
  | zero =>
    intro pos current
    simp [run_from]
  | succ k ih =>
    intro pos current
    have h7 : (current + 7) + 7 * (k : Int) = current + 7 * ((k + 1 : Nat) : Int) := by
      push_cast
      ring
    calc run_from st pos current (k + 1 + 1)
        = run_from st (duty_step st pos current).2 (current + 7) (k + 1) := rfl
      _ = (duty_step st
            (run_from st (duty_step st pos current).2 (current + 7) k)
            ((current + 7) + 7 * k)).2 := ih _ _
      _ = (duty_step st (run_from st pos current (k + 1)) ((current + 7) + 7 * k)).2 := by
            rw [run_from_unfold]
      _ = (duty_step st (run_from st pos current (k + 1))
            (current + 7 * ((k + 1 : Nat) : Int))).2 := by
            rw [h7]

/-- On a cadence-aligned date `current + 7 * k`, the replay loop (run
with enough fuel) returns the assignment computed by the cycle at that
date, with the pointer obtained by replaying the first `k` cycles. -/
theorem duty_loop_aligned (st : State) :
    ∀ (k fuel pos : Nat) (current : Int), k < fuel →
      duty_loop st (current + 7 * k) pos current fuel =
        (duty_step st (run_from st pos current k) (current + 7 * k)).1 := by
  intro k
  induction k with
  | zero =>
    intro fuel pos current hk
    match fuel, hk with
    | fuel + 1, _ => simp [duty_loop, run_from]
  | succ k ih =>
    intro fuel pos current hk
    match fuel, hk with
    | fuel + 1, hk =>
      have hle : current ≤ current + 7 * ((k + 1 : Nat) : Int) := by omega
      have hne : ¬ current = current + 7 * ((k + 1 : Nat) : Int) := by omega
      have h7 : current + 7 * ((k + 1 : Nat) : Int) = (current + 7) + 7 * (k : Int) := by
        push_cast
        ring
      simp only [duty_loop, if_pos hle, if_neg hne]
      calc duty_loop st (current + 7 * ((k + 1 : Nat) : Int))
              (duty_step st pos current).2 (current + 7) fuel
          = duty_loop st ((current + 7) + 7 * (k : Int))
              (duty_step st pos current).2 (current + 7) fuel := by
            rw [h7]
        _ = (duty_step st
              (run_from st (duty_step st pos current).2 (current + 7) k)
              ((current + 7) + 7 * (k : Int))).1 := ih fuel _ _ (by omega)
        _ = (duty_step st (run_from st pos current (k + 1))
              ((current + 7) + 7 * (k : Int))).1 := by
            rw [run_from_unfold]
        _ = (duty_step st (run_from st pos current (k + 1))
              (current + 7 * ((k + 1 : Nat) : Int))).1 := by
            rw [h7]

/-- `get_duty_member` on the cadence date `start_date + 7 * k` is the
assignment of cycle `k`, computed from the pointer `run_pos st k`. -/
theorem get_duty_member_aligned (st : State) (k : Nat) (hmem : st.members ≠ []) :
    get_duty_member (st.start_date + 7 * k) st =
      (duty_step st (run_pos st k) (st.start_date + 7 * k)).1 := by
  have h1 : st.members.isEmpty = false := by
    cases h : st.members with
    | nil => exact absurd h hmem
    | cons a l => rfl
  have h2 : ¬ st.start_date + 7 * (k : Int) < st.start_date := by omega
  have h3 : (st.start_date + 7 * (k : Int) - st.start_date).toNat + 1 = 7 * k + 1 := by
    omega
  simp only [get_duty_member, h1, Bool.false_eq_true, if_false, if_neg h2, h3]
  exact duty_loop_aligned st k (7 * k + 1) 0 st.start_date (by omega)

/-- The replay loop returns `none` whenever the target date is not a
whole number of weeks past the running date, whatever the fuel. -/
theorem duty_loop_offcadence (st : State) (day : Int) :
    ∀ (fuel pos : Nat) (current : Int), (day - current) % 7 ≠ 0 →
      duty_loop st day pos current fuel = none := by
  intro fuel
  induction fuel with
  | zero => intro pos current _; rfl
  | succ fuel ih =>
    intro pos current h
    simp only [duty_loop]
    by_cases hle : current ≤ day
    · rw [if_pos hle, if_neg (by omega : ¬ current = day)]
      exact ih _ _ (by omega)
    · rw [if_neg hle]

/-! ## Clean-rotation lemmas (no holidays, no overrides, no absences) -/

/-- With an empty `away_ranges` table, nobody is ever away. -/
theorem is_member_away_on_nil (st : State) (h : st.away_ranges = [])
    (uid : Int) (d : Int) : is_member_away_on uid d st = false := by
  simp [is_member_away_on, h, lookupAL]

/-- The absence scan succeeds at once when the member at the current
index is present and not away. -/
theorem scan_away_hit (st : State) (d : Int) (idx tried : Nat) (m : Member)
    (hget : st.members[idx]? = some m)
    (haway : is_member_away_on m.id d st = false) :
    scan_away st d idx (tried + 1) = some (m, (idx + 1) % st.members.length) := by
  simp only [scan_away]
  rw [hget]
  simp [haway]

/-- In a clean config the absence scan immediately picks the member at
the current pointer and moves the pointer one past it. -/
theorem scan_away_clean (st : State) (haway : st.away_ranges = [])
    (pos : Nat) (current : Int) (hpos : pos < st.members.length) :
    scan_away st current pos st.members.length =
      some (st.members.get ⟨pos, hpos⟩, (pos + 1) % st.members.length) := by
  have hget : st.members[pos]? = some (st.members.get ⟨pos, hpos⟩) := by
    simp [List.getElem?_eq_getElem hpos]
  obtain ⟨n, hn⟩ : ∃ n, st.members.length = n + 1 := ⟨st.members.length - 1, by omega⟩
  conv_lhs => rw [hn]
  exact scan_away_hit st current pos n _ hget (is_member_away_on_nil st haway _ _)

/-- In a clean config one cycle assigns the member at the pointer and
advances the pointer by one, modulo the member count. -/
theorem duty_step_clean (st : State) (hhol : st.global_holidays = [])
    (hov : st.overrides = []) (haway : st.away_ranges = [])
    (pos : Nat) (current : Int) (hpos : pos < st.members.length) :
    duty_step st pos current =
      (some (st.members.get ⟨pos, hpos⟩), (pos + 1) % st.members.length) := by
  simp only [duty_step, is_global_holiday, hhol, List.any_nil, hov, lookupAL,
    Bool.false_eq_true, if_false, scan_away_clean st haway pos current hpos]

/-- In a clean config the pointer after `k` cycles starting at `pos` is
`(pos + k) % len(members)`. -/
theorem run_from_clean (st : State) (hhol : st.global_holidays = [])
    (hov : st.overrides = []) (haway : st.away_ranges = []) :
    ∀ (k pos : Nat) (current : Int), pos < st.members.length →
      run_from st pos current k = (pos + k) % st.members.length := by
  intro k
  induction k with
  | zero =>
    intro pos current hpos
    simp [run_from, Nat.mod_eq_of_lt hpos]
  | succ k ih =>
    intro pos current hpos
    have hn : 0 < st.members.length := by omega
    rw [run_from_unfold, duty_step_clean st hhol hov haway pos current hpos]
    rw [ih ((pos + 1) % st.members.length) (current + 7) (Nat.mod_lt _ hn)]
    rw [Nat.mod_add_mod]
    congr 1
    omega

/-- C1.  In a configuration with `N ≥ 1` members and no holidays, no
absences and no overrides, `resolve` on the cadence date
`start_date + 7 * k` returns the member at index `k % N` of the ordered
member list: the rotation cycles through `members` in list order with
period `N`.  (The witness instantiates the spec's concrete example
`start_date = 2025-12-01`, `members = [A, B, C]` at the four dates
2025-12-01/08/15/22.) -/
theorem rotation_cycles_in_order (st : State) (k : Nat)
    (hhol : st.global_holidays = []) (hov : st.overrides = [])
    (haway : st.away_ranges = []) (hmem : st.members ≠ []) :
    get_duty_member (st.start_date + 7 * k) st =
      st.members[k % st.members.length]? := by
  have hn : 0 < st.members.length := List.length_pos.mpr hmem
  have hk : k % st.members.length < st.members.length := Nat.mod_lt _ hn
  rw [get_duty_member_aligned st k hmem]
  have hp : run_pos st k = k % st.members.length := by
    have h := run_from_clean st hhol hov haway k 0 st.start_date hn
    simpa [run_pos] using h
  rw [hp, duty_step_clean st hhol hov haway _ _ hk]
  simp [List.getElem?_eq_getElem hk]

/-- Witness for `rotation_cycles_in_order`: the spec's worked example.
`A`, `B`, `C`, then `A` again on 2025-12-01, -08, -15, -22. -/
theorem rotation_cycles_in_order_witness :
    get_duty_member (daysFromCivil 2025 12 1) exRotation = some memA ∧
    get_duty_member (daysFromCivil 2025 12 8) exRotation = some memB ∧
    get_duty_member (daysFromCivil 2025 12 15) exRotation = some memC ∧
    get_duty_member (daysFromCivil 2025 12 22) exRotation = some memA := by
  have h0 := rotation_cycles_in_order exRotation 0 rfl rfl rfl (by decide)
  have h1 := rotation_cycles_in_order exRotation 1 rfl rfl rfl (by decide)
  have h2 := rotation_cycles_in_order exRotation 2 rfl rfl rfl (by decide)
  have h3 := rotation_cycles_in_order exRotation 3 rfl rfl rfl (by decide)
  refine ⟨?_, ?_, ?_, ?_⟩
  · rw [(by decide : daysFromCivil 2025 12 1 = exRotation.start_date + 7 * (0 : Nat)), h0]
    decide
  · rw [(by decide : daysFromCivil 2025 12 8 = exRotation.start_date + 7 * (1 : Nat)), h1]
    decide
  · rw [(by decide : daysFromCivil 2025 12 15 = exRotation.start_date + 7 * (2 : Nat)), h2]
    decide
  · rw [(by decide : daysFromCivil 2025 12 22 = exRotation.start_date + 7 * (3 : Nat)), h3]
    decide

/-- C9.  A date on or after `start_date` that is not an exact multiple
of 7 days past it resolves to `none`: the loop steps over it without
ever returning an assignment, whatever overrides or eligible members
exist in the surrounding weeks. -/
theorem offcadence_resolves_none (st : State) (d : Int)
    (hmem : st.members ≠ []) (hge : st.start_date ≤ d)
    (hmod : (d - st.start_date) % 7 ≠ 0) :
    get_duty_member d st = none := by
  have h1 : st.members.isEmpty = false := by
    cases h : st.members with
    | nil => exact absurd h hmem
    | cons a l => rfl
  simp only [get_duty_member, h1, Bool.false_eq_true, if_false,
    if_neg (by omega : ¬ d < st.start_date)]
  exact duty_loop_offcadence st d _ _ _ hmod

/-- Witness for `offcadence_resolves_none`: 2025-12-09 (one day past a
cadence date) resolves to nobody in the example config. -/
theorem offcadence_resolves_none_witness :
    get_duty_member (daysFromCivil 2025 12 9) exRotation = none :=
  offcadence_resolves_none exRotation (daysFromCivil 2025 12 9)
    (by decide) (by decide) (by decide)

/-- C3.  On a cadence date that has an override and is not inside a
global holiday, the cycle advances the pointer by exactly one position
modulo `len(members)` from its pre-override value, whatever member id
the override names (`run_pos st k` is the loop pointer on entry to the
cycle at `start_date + 7 * k`). -/
theorem override_consumes_one_turn (st : State) (k : Nat)
    (_hmem : st.members ≠ [])
    (hhol : is_global_holiday (st.start_date + 7 * k) st = false)
    (hov : (lookupAL (st.start_date + 7 * k) st.overrides).isSome = true) :
    run_pos st (k + 1) = (run_pos st k + 1) % st.members.length := by
  obtain ⟨oid, hoid⟩ := Option.isSome_iff_exists.mp hov
  have h := run_from_succ st k 0 st.start_date
  rw [run_pos, run_pos, h]
  simp [duty_step, hhol, hoid]

/-- Witness for `override_consumes_one_turn`: the override for
2025-12-08 naming `C` still moves the pointer from 1 to 2. -/
theorem override_consumes_one_turn_witness :
    run_pos exOverrideC 2 = (run_pos exOverrideC 1 + 1) % exOverrideC.members.length :=
  override_consumes_one_turn exOverrideC 1 (by decide) (by decide) (by decide)

/-! ## Congruence lemmas: what each part of a cycle depends on -/

/-- Members found by the indexed read belong to the list. -/
theorem mem_of_getElemOpt (l : List Member) (i : Nat) (m : Member)
    (h : l[i]? = some m) : m ∈ l := by
  obtain ⟨hi, he⟩ := List.getElem?_eq_some_iff.mp h
  exact he ▸ List.getElem_mem hi

/-- The absence scan of two snapshots (possibly at two dates) agrees as
soon as the member lists agree and every member's away status on the
scanned date agrees. -/
theorem scan_away_congr (st st' : State) (d d' : Int)
    (hm : st'.members = st.members)
    (hday : ∀ m ∈ st.members, is_member_away_on m.id d' st' = is_member_away_on m.id d st) :
    ∀ (t idx : Nat), scan_away st' d' idx t = scan_away st d idx t := by
  intro t
  induction t with
  | zero => intro idx; rfl
  | succ t ih =>
    intro idx
    simp only [scan_away, hm]
    cases hidx : st.members[idx]? with
    | none => rfl
    | some candidate =>
      have hc : candidate ∈ st.members := mem_of_getElemOpt _ _ _ hidx
      dsimp only
      rw [hday candidate hc]
      by_cases ha : is_member_away_on candidate.id d st = true
      · simp [ha, ih]
      · simp [eq_false_of_ne_true ha]

/-- One cycle of two snapshots (possibly at two dates) agrees as soon as
the member lists, the holiday verdict, the override lookup and every
member's away status agree. -/
theorem duty_step_congr (st st' : State) (c c' : Int)
    (hm : st'.members = st.members)
    (hhol : is_global_holiday c' st' = is_global_holiday c st)
    (hov : lookupAL c' st'.overrides = lookupAL c st.overrides)
    (hday : ∀ m ∈ st.members, is_member_away_on m.id c' st' = is_member_away_on m.id c st) :
    ∀ pos : Nat, duty_step st' pos c' = duty_step st pos c := by
  intro pos
  have hid : ∀ i : Int, get_member_by_id i st' = get_member_by_id i st := by
    intro i
    simp [get_member_by_id, hm]
  simp only [duty_step, hhol, hov, hm]
  cases is_global_holiday c st
  · cases lookupAL c st.overrides with
    | none => simp [scan_away_congr st st' c c' hm hday]
    | some oid => simp [hid]
  · simp

/-- Replaying two snapshots that differ only in `global_holidays` keeps
the pointers equal as long as the holiday verdicts of the replayed
cycles agree. -/
theorem run_from_congr_holidays (st : State) (gh' : List DateRange) :
    ∀ (k pos : Nat) (current : Int),
      (∀ j < k, is_global_holiday (current + 7 * j) { st with global_holidays := gh' } =
        is_global_holiday (current + 7 * j) st) →
      run_from { st with global_holidays := gh' } pos current k = run_from st pos current k := by
  intro k
  induction k with
  | zero => intro pos current _; rfl
  | succ k ih =>
    intro pos current h
    have h0 : is_global_holiday current { st with global_holidays := gh' } =
        is_global_holiday current st := by
      have := h 0 (by omega)
      simpa using this
    have hstep : duty_step { st with global_holidays := gh' } pos current =
        duty_step st pos current :=
      duty_step_congr st { st with global_holidays := gh' } current current rfl h0 rfl
        (fun m _ => rfl) pos
    rw [run_from_unfold, run_from_unfold, hstep]
    apply ih
    intro j hj
    have := h (j + 1) (by omega)
    have h7 : current + 7 * ((j + 1 : Nat) : Int) = (current + 7) + 7 * (j : Int) := by
      push_cast
      ring
    rw [h7] at this
    exact this

/-- C4.  A cadence date `D = start_date + 7 * k` inside a global holiday
resolves to `none` and leaves the pointer of that cycle untouched.
Consequently, when `D + 7` is not a holiday, the member assigned at
`D + 7` is the member that the holiday-free snapshot (same snapshot with
`global_holidays` replaced so that `D` is no longer a holiday, earlier
cycles keeping their holiday verdicts) assigns at `D` — provided the two
compared cycles are otherwise interchangeable: neither date carries an
override, and each member's away status agrees on `D` and `D + 7`. -/
theorem holiday_freeze (st : State) (k : Nat)
    (hholD : is_global_holiday (st.start_date + 7 * k) st = true) :
    (get_duty_member (st.start_date + 7 * k) st = none ∧
      run_pos st (k + 1) = run_pos st k) ∧
    (∀ gh' : List DateRange,
      (∀ j < k, is_global_holiday (st.start_date + 7 * j) { st with global_holidays := gh' } =
        is_global_holiday (st.start_date + 7 * j) st) →
      is_global_holiday (st.start_date + 7 * k) { st with global_holidays := gh' } = false →
      is_global_holiday (st.start_date + 7 * (k + 1)) st = false →
      lookupAL (st.start_date + 7 * k) st.overrides = none →
      lookupAL (st.start_date + 7 * (k + 1)) st.overrides = none →
      (∀ m ∈ st.members,
        is_member_away_on m.id (st.start_date + 7 * (k + 1)) st =
          is_member_away_on m.id (st.start_date + 7 * k) st) →
      get_duty_member (st.start_date + 7 * (k + 1)) st =
        get_duty_member (st.start_date + 7 * k) { st with global_holidays := gh' }) := by
  have hfrozen : run_pos st (k + 1) = run_pos st k := by
    rw [run_pos, run_pos, run_from_succ st k 0 st.start_date]
    simp [duty_step, hholD]
  constructor
  · constructor
    · by_cases hmem : st.members = []
      · simp [get_duty_member, hmem]
      · rw [get_duty_member_aligned st k hmem]
        simp [duty_step, hholD]
    · exact hfrozen
  · intro gh' hprev hD' hD7 hov1 hov2 haw
    by_cases hmem : st.members = []
    · simp [get_duty_member, hmem]
    · have hmem' : ({ st with global_holidays := gh' } : State).members ≠ [] := hmem
      have hrun : run_pos { st with global_holidays := gh' } k = run_pos st k := by
        rw [run_pos, run_pos]
        exact run_from_congr_holidays st gh' k 0 st.start_date hprev
      have hstep : duty_step { st with global_holidays := gh' } (run_pos st k)
          (st.start_date + 7 * k) =
          duty_step st (run_pos st k) (st.start_date + 7 * (k + 1)) := by
        refine duty_step_congr st { st with global_holidays := gh' }
          (st.start_date + 7 * (k + 1)) (st.start_date + 7 * k) rfl ?_ ?_ ?_ (run_pos st k)
        · rw [hD', hD7]
        · simpa using hov1.trans hov2.symm
        · intro m hmmem
          have : is_member_away_on m.id (st.start_date + 7 * k)
              { st with global_holidays := gh' } =
              is_member_away_on m.id (st.start_date + 7 * k) st := rfl
          rw [this, haw m hmmem]
      have ha := get_duty_member_aligned st (k + 1) hmem
      push_cast at ha
      have hb := get_duty_member_aligned { st with global_holidays := gh' } k hmem'
      dsimp only at hb
      rw [ha, hb, hfrozen, hrun, hstep]

/-- Witness for `holiday_freeze`: the spec's holiday example.  With a
holiday on 2025-12-08, resolution there is `none`, and 2025-12-15 gets
the member that the holiday-free config would have put on 2025-12-08
(namely `B`). -/
theorem holiday_freeze_witness :
    (get_duty_member (exHoliday.start_date + 7 * 1) exHoliday = none ∧
      run_pos exHoliday 2 = run_pos exHoliday 1) ∧
    get_duty_member (exHoliday.start_date + 7 * 2) exHoliday =
      get_duty_member (exHoliday.start_date + 7 * 1)
        { exHoliday with global_holidays := [] } := by
  have h := holiday_freeze exHoliday 1 (by decide)
  exact ⟨h.1, h.2 [] (by decide) (by decide) (by decide) (by decide) (by decide) (by decide)⟩

/-! ## Absence-scan lemmas -/

/-- When every member is away on `d`, the scan never finds anyone. -/
theorem scan_away_none_of_all_away (st : State) (d : Int)
    (h : ∀ m ∈ st.members, is_member_away_on m.id d st = true) :
    ∀ (t idx : Nat), scan_away st d idx t = none := by
  intro t
  induction t with
  | zero => intro idx; rfl
  | succ t ih =>
    intro idx
    simp only [scan_away]
    cases hidx : st.members[idx]? with
    | none => rfl
    | some candidate =>
      have hc : candidate ∈ st.members := mem_of_getElemOpt _ _ _ hidx
      dsimp only
      rw [h candidate hc]
      simp [ih]

/-- Anything the scan returns is a member found at some index `idx`,
not away on `d`, paired with the pointer `(idx + 1) % len(members)` —
one past the assigned member, never past a merely skipped one. -/
theorem scan_away_found (st : State) (d : Int) :
    ∀ (t idx0 : Nat) (m : Member) (p : Nat),
      scan_away st d idx0 t = some (m, p) →
      ∃ idx : Nat, st.members[idx]? = some m ∧
        is_member_away_on m.id d st = false ∧
        p = (idx + 1) % st.members.length := by
  intro t
  induction t with
  | zero =>
    intro idx0 m p h
    exact absurd h (by simp [scan_away])
  | succ t ih =>
    intro idx0 m p h
    rw [scan_away] at h
    cases hidx : st.members[idx0]? with
    | none =>
      rw [hidx] at h
      exact absurd h (by simp)
    | some candidate =>
      rw [hidx] at h
      dsimp only at h
      by_cases ha : is_member_away_on candidate.id d st = true
      · rw [if_pos ha] at h
        exact ih _ _ _ h
      · rw [if_neg ha] at h
        have hmp : candidate = m ∧ (idx0 + 1) % st.members.length = p := by
          simpa using h
        refine ⟨idx0, hmp.1 ▸ hidx, ?_, hmp.2.symm⟩
        rw [← hmp.1]
        exact eq_false_of_ne_true ha

/-- C5.  On a cadence date `D = start_date + 7 * k` that is neither a
holiday nor overridden: if every member is away on `D`, `resolve(D)` is
`none` and the pointer is identical before and after the cycle; and
whenever the absence scan run by that cycle does assign a member, the
new pointer is `(idx + 1) % len(members)` for the index `idx` at which
the (non-away) member was found — one past the assigned member, never
past a merely skipped one. -/
theorem all_absent_and_scan_pointer (st : State) (k : Nat)
    (hmem : st.members ≠ [])
    (hhol : is_global_holiday (st.start_date + 7 * k) st = false)
    (hov : lookupAL (st.start_date + 7 * k) st.overrides = none) :
    ((∀ m ∈ st.members, is_member_away_on m.id (st.start_date + 7 * k) st = true) →
      get_duty_member (st.start_date + 7 * k) st = none ∧
        run_pos st (k + 1) = run_pos st k) ∧
    (∀ (m : Member) (p : Nat),
      scan_away st (st.start_date + 7 * k) (run_pos st k) st.members.length = some (m, p) →
      run_pos st (k + 1) = p ∧
      ∃ idx : Nat, st.members[idx]? = some m ∧
        is_member_away_on m.id (st.start_date + 7 * k) st = false ∧
        p = (idx + 1) % st.members.length) := by
  constructor
  · intro hall
    have hscan := scan_away_none_of_all_away st (st.start_date + 7 * k) hall
    constructor
    · rw [get_duty_member_aligned st k hmem]
      simp [duty_step, hhol, hov, hscan]
    · rw [run_pos, run_pos, run_from_succ st k 0 st.start_date]
      simp [duty_step, hhol, hov, hscan]
  · intro m p hscan
    constructor
    · rw [run_pos, run_from_succ st k 0 st.start_date]
      have hrp : run_from st 0 st.start_date k = run_pos st k := rfl
      rw [hrp]
      simp [duty_step, hhol, hov, hscan]
    · exact scan_away_found st (st.start_date + 7 * k) _ _ m p hscan

/-- Witness for `all_absent_and_scan_pointer`: in `exAllAway` both
members are away on the start date, so nobody is assigned and the
pointer stays put; in `exAway` (B away on 2025-12-08) the scan of that
cycle assigns `C`, found at index 2, and the pointer becomes
`(2 + 1) % 3 = 0`. -/
theorem all_absent_and_scan_pointer_witness :
    (get_duty_member (exAllAway.start_date + 7 * 0) exAllAway = none ∧
      run_pos exAllAway 1 = run_pos exAllAway 0) ∧
    (run_pos exAway 2 = 0 ∧
      ∃ idx : Nat, exAway.members[idx]? = some memC ∧
        is_member_away_on memC.id (exAway.start_date + 7 * 1) exAway = false ∧
        0 = (idx + 1) % exAway.members.length) := by
  have h1 := (all_absent_and_scan_pointer exAllAway 0 (by decide) (by decide)
    (by decide)).1 (by decide)
  have h2 := (all_absent_and_scan_pointer exAway 1 (by decide) (by decide)
    (by decide)).2 memC 0 (by decide)
  exact ⟨h1, h2⟩

/-! ## Dangling override references -/

/-- C2 counterexample.  `exDangling` has an override for the cadence
date 2025-12-08 naming id 99, an id absent from `members`; the claim
says `resolve` on that date still reports an id-backed assignment rather
than `none`, but the source stores `get_member_by_id(override_id)` —
which is `None` for a dangling id — as the cycle's assignment, so
`resolve` reports `none`. -/
theorem dangling_override_counterexample :
    lookupAL (daysFromCivil 2025 12 8) exDangling.overrides = some 99 ∧
    get_member_by_id 99 exDangling = none ∧
    get_duty_member (daysFromCivil 2025 12 8) exDangling = none := by
  exact ⟨by decide, by decide, by decide⟩

/-- C2 amended.  On a cadence date with an override whose member id no
longer exists in `members` (and which is not inside a holiday),
`resolve` reports `none`: the dangling id resolves to no member.  (The
turn is still consumed — `override_consumes_one_turn` applies to any
override, dangling or not.) -/
theorem dangling_override_resolves_none (st : State) (k : Nat) (oid : Int)
    (hmem : st.members ≠ [])
    (hhol : is_global_holiday (st.start_date + 7 * k) st = false)
    (hov : lookupAL (st.start_date + 7 * k) st.overrides = some oid)
    (hdangle : get_member_by_id oid st = none) :
    get_duty_member (st.start_date + 7 * k) st = none := by
  rw [get_duty_member_aligned st k hmem]
  simp [duty_step, hhol, hov, hdangle]

/-- Witness for `dangling_override_resolves_none` at the concrete
dangling config. -/
theorem dangling_override_resolves_none_witness :
    get_duty_member (exDangling.start_date + 7 * 1) exDangling = none :=
  dangling_override_resolves_none exDangling 1 99 (by decide) (by decide)
    (by decide) (by decide)

/-- C7.  `resolve` returns `none` for an empty member list, and `none`
for any target date strictly before `start_date`; being a pure function
of the snapshot, it has no other effect. -/
theorem resolve_preconditions (st : State) (d : Int) :
    (st.members = [] → get_duty_member d st = none) ∧
    (d < st.start_date → get_duty_member d st = none) := by
  constructor
  · intro h
    simp [get_duty_member, h]
  · intro h
    by_cases hm : st.members.isEmpty
    · simp [get_duty_member, hm]
    · simp [get_duty_member, hm, h]

/-- Witness for `resolve_preconditions`: the empty config, and the
example config one day before its start date. -/
theorem resolve_preconditions_witness :
    get_duty_member 0 exEmpty = none ∧
    get_duty_member (daysFromCivil 2025 11 30) exRotation = none := by
  have h1 := (resolve_preconditions exEmpty 0).1 rfl
  have h2 := (resolve_preconditions exRotation (daysFromCivil 2025 11 30)).2 (by decide)
  exact ⟨h1, h2⟩

/-! ## Purity and determinism of the resolver -/

/-- The threaded replay loop hands back exactly the snapshot it was
given: no iteration writes to the state. -/
theorem duty_loop_tr_snd (day : Int) :
    ∀ (fuel pos : Nat) (current : Int) (st : State),
      (duty_loop_tr day pos current fuel st).2 = st := by
  intro fuel
  induction fuel with
  | zero => intro pos current st; rfl
  | succ fuel ih =>
    intro pos current st
    simp only [duty_loop_tr]
    by_cases hle : current ≤ day
    · rw [if_pos hle]
      by_cases heq : current = day
      · rw [if_pos heq]
      · rw [if_neg heq]
        exact ih _ _ _
    · rw [if_neg hle]

/-- The threaded replay loop computes the same assignment as the pure
one. -/
theorem duty_loop_tr_fst (day : Int) :
    ∀ (fuel pos : Nat) (current : Int) (st : State),
      (duty_loop_tr day pos current fuel st).1 = duty_loop st day pos current fuel := by
  intro fuel
  induction fuel with
  | zero => intro pos current st; rfl
  | succ fuel ih =>
    intro pos current st
    simp only [duty_loop_tr, duty_loop]
    by_cases hle : current ≤ day
    · rw [if_pos hle, if_pos hle]
      by_cases heq : current = day
      · rw [if_pos heq, if_pos heq]
      · rw [if_neg heq, if_neg heq]
        exact ih _ _ _
    · rw [if_neg hle, if_neg hle]

/-- C8.  `resolve` is deterministic and side-effect free: the call hands
the snapshot back unchanged, its result is the pure function
`get_duty_member` of snapshot and date alone, and a second call on the
snapshot left behind by the first returns the identical result — no
hidden counter survives across calls. -/
theorem resolve_pure_and_deterministic (d : Int) (st : State) :
    (get_duty_member_tr d st).2 = st ∧
    (get_duty_member_tr d st).1 = get_duty_member d st ∧
    get_duty_member_tr d (get_duty_member_tr d st).2 = get_duty_member_tr d st := by
  have hsnd : (get_duty_member_tr d st).2 = st := by
    unfold get_duty_member_tr
    by_cases h1 : st.members.isEmpty
    · rw [if_pos h1]
    · rw [if_neg h1]
      by_cases h2 : d < st.start_date
      · rw [if_pos h2]
      · rw [if_neg h2]
        exact duty_loop_tr_snd d _ _ _ st
  have hfst : (get_duty_member_tr d st).1 = get_duty_member d st := by
    unfold get_duty_member_tr get_duty_member
    by_cases h1 : st.members.isEmpty
    · rw [if_pos h1, if_pos h1]
    · rw [if_neg h1, if_neg h1]
      by_cases h2 : d < st.start_date
      · rw [if_pos h2, if_pos h2]
      · rw [if_neg h2, if_neg h2]
        exact duty_loop_tr_fst d _ _ _ st
  exact ⟨hsnd, hfst, by rw [hsnd]⟩

/-! ## Association-list lemmas for the swap ledger -/

/-- Reading back the key just written. -/
theorem lookupAL_setAL_self {α : Type} (k : Int) (v : α) :
    ∀ al : List (Int × α), lookupAL k (setAL k v al) = some v := by
  intro al
  induction al with
  | nil => simp [setAL, lookupAL]
  | cons p rest ih =>
    by_cases h : p.1 = k
    · simp [setAL, h, lookupAL]
    · simp [setAL, h, lookupAL, ih]

/-- `d[k] += 1` on the first binding: the read afterwards is the read
before, plus one. -/
theorem lookupAL_bumpAL_self (k : Int) :
    ∀ al : List (Int × Nat),
      lookupAL k (bumpAL k al) = (lookupAL k al).map (· + 1) := by
  intro al
  induction al with
  | nil => simp [bumpAL, lookupAL]
  | cons p rest ih =>
    by_cases h : p.1 = k
    · simp [bumpAL, h, lookupAL]
    · simp [bumpAL, h, lookupAL, ih]

/-- Looking past bindings that do not carry the key. -/
theorem lookupAL_append_of_none {α : Type} (k : Int) (l2 : List (Int × α)) :
    ∀ al : List (Int × α), lookupAL k al = none →
      lookupAL k (al ++ l2) = lookupAL k l2 := by
  intro al
  induction al with
  | nil => intro _; simp
  | cons p rest ih =>
    intro h
    rw [lookupAL] at h
    by_cases hp : p.1 = k
    · rw [if_pos hp] at h
      cases h
    · rw [if_neg hp] at h
      simp only [List.cons_append, lookupAL, if_neg hp]
      exact ih h

/-- `setdefault(k, 0)` followed by `+= 1`: the ledger ends with entry
`old + 1`, where `old` is the previous count or 0 when absent. -/
theorem penalty_after_ensure_bump (k : Int) (al : List (Int × Nat)) :
    lookupAL k (bumpAL k (if (lookupAL k al).isSome then al else al ++ [(k, 0)])) =
      some ((lookupAL k al).getD 0 + 1) := by
  cases h : lookupAL k al with
  | some c =>
    simp [h, lookupAL_bumpAL_self]
  | none =>
    have hlook : lookupAL k (al ++ [(k, 0)]) = some 0 := by
      rw [lookupAL_append_of_none k _ al h]
      simp [lookupAL]
    simp [h, lookupAL_bumpAL_self, hlook]

/-- `ensure_penalty_entry` touches only the penalty ledger. -/
theorem ensure_penalty_entry_overrides (uid : Int) (st : State) :
    (ensure_penalty_entry uid st).overrides = st.overrides := by
  unfold ensure_penalty_entry
  split
  · rfl
  · rfl

/-- `ensure_penalty_entry` leaves the member list alone. -/
theorem ensure_penalty_entry_members (uid : Int) (st : State) :
    (ensure_penalty_entry uid st).members = st.members := by
  unfold ensure_penalty_entry
  split
  · rfl
  · rfl

/-- The ledger produced by `ensure_penalty_entry`, spelled out. -/
theorem ensure_penalty_entry_penalties (uid : Int) (st : State) :
    (ensure_penalty_entry uid st).penalties =
      if (lookupAL uid st.penalties).isSome then st.penalties
      else st.penalties ++ [(uid, 0)] := by
  unfold ensure_penalty_entry
  split
  · simp_all
  · simp_all

/-- Shape of a successful acceptance: outcome `accepted`, member list
untouched, override table updated at the offer date, and the absent
member's penalty read back as its old value (default 0) plus one. -/
theorem accept_swap_success (st : State) (d vol absent : Int)
    (hvol : (get_member_by_id vol st).isSome = true)
    (hov : lookupAL d st.overrides = none) :
    (accept_swap st d vol absent).1 = SwapOutcome.accepted ∧
    (accept_swap st d vol absent).2.members = st.members ∧
    (accept_swap st d vol absent).2.overrides = setAL d vol st.overrides ∧
    lookupAL absent (accept_swap st d vol absent).2.penalties =
      some ((lookupAL absent st.penalties).getD 0 + 1) := by
  obtain ⟨vm, hvm⟩ := Option.isSome_iff_exists.mp hvol
  refine ⟨?_, ?_, ?_, ?_⟩
  · simp only [accept_swap, hvm, hov]
  · simp only [accept_swap, hvm, hov]
    rw [ensure_penalty_entry_members]
  · simp only [accept_swap, hvm, hov]
    rw [ensure_penalty_entry_overrides]
  · simp only [accept_swap, hvm, hov]
    rw [ensure_penalty_entry_penalties]
    exact penalty_after_ensure_bump absent st.penalties

/-- C6.  When the offer's date has no override yet and the volunteer is
a member, `acceptSwap` succeeds: it sets `overrides[date] = volunteerId`
and raises `penalties[absentId]` to its old value (created at 0 when
absent) plus exactly 1.  A second `acceptSwap` for the same date — by
any member volunteer, for any absent id — fails with a conflict and
returns the snapshot unchanged, so both the override entry and the
penalty count survive intact. -/
theorem accept_swap_ledger (st : State) (d vol absent : Int)
    (hvol : (get_member_by_id vol st).isSome = true)
    (hov : lookupAL d st.overrides = none) :
    (accept_swap st d vol absent).1 = SwapOutcome.accepted ∧
    lookupAL d (accept_swap st d vol absent).2.overrides = some vol ∧
    lookupAL absent (accept_swap st d vol absent).2.penalties =
      some ((lookupAL absent st.penalties).getD 0 + 1) ∧
    (∀ vol2 absent2 : Int,
      (get_member_by_id vol2 (accept_swap st d vol absent).2).isSome = true →
      accept_swap (accept_swap st d vol absent).2 d vol2 absent2 =
        (SwapOutcome.conflict, (accept_swap st d vol absent).2)) := by
  obtain ⟨hacc, _hm, hovr, hpen⟩ := accept_swap_success st d vol absent hvol hov
  have hlook : lookupAL d (accept_swap st d vol absent).2.overrides = some vol := by
    rw [hovr]
    exact lookupAL_setAL_self d vol st.overrides
  refine ⟨hacc, hlook, hpen, ?_⟩
  intro vol2 absent2 hvol2
  obtain ⟨vm2, hvm2⟩ := Option.isSome_iff_exists.mp hvol2
  generalize hst1 : (accept_swap st d vol absent).2 = st1 at hlook hvm2 ⊢
  simp only [accept_swap, hvm2, hlook]

/-- Witness for `accept_swap_ledger`: `C` volunteers for 2025-12-08 in
place of `B`; the second acceptance attempt (by `A`) hits the conflict
and changes nothing. -/
theorem accept_swap_ledger_witness :
    (accept_swap exRotation (daysFromCivil 2025 12 8) 3 2).1 = SwapOutcome.accepted ∧
    lookupAL (daysFromCivil 2025 12 8)
      (accept_swap exRotation (daysFromCivil 2025 12 8) 3 2).2.overrides = some 3 ∧
    lookupAL 2 (accept_swap exRotation (daysFromCivil 2025 12 8) 3 2).2.penalties =
      some 1 ∧
    accept_swap (accept_swap exRotation (daysFromCivil 2025 12 8) 3 2).2
        (daysFromCivil 2025 12 8) 1 2 =
      (SwapOutcome.conflict, (accept_swap exRotation (daysFromCivil 2025 12 8) 3 2).2) := by
  have h := accept_swap_ledger exRotation (daysFromCivil 2025 12 8) 3 2
    (by decide) (by decide)
  refine ⟨h.1, h.2.1, ?_, h.2.2.2 1 2 (by decide)⟩
  have hp := h.2.2.1
  simpa using hp

/-- C10.  `acceptSwap` never compares the volunteer to the absent
member: when the volunteer id equals the offer's absent id (and is a
member, and the date is free), the call succeeds, records an override
naming the absent member themself, and still increments their own
penalty by 1. -/
theorem self_volunteer_accepted (st : State) (d v : Int)
    (hvol : (get_member_by_id v st).isSome = true)
    (hov : lookupAL d st.overrides = none) :
    (accept_swap st d v v).1 = SwapOutcome.accepted ∧
    lookupAL d (accept_swap st d v v).2.overrides = some v ∧
    lookupAL v (accept_swap st d v v).2.penalties =
      some ((lookupAL v st.penalties).getD 0 + 1) := by
  obtain ⟨hacc, _hm, hovr, hpen⟩ := accept_swap_success st d v v hvol hov
  refine ⟨hacc, ?_, hpen⟩
  rw [hovr]
  exact lookupAL_setAL_self d v st.overrides

/-- Witness for `self_volunteer_accepted`: `B` "volunteers" to cover
their own skipped 2025-12-08 duty and receives their own penalty
point. -/
theorem self_volunteer_accepted_witness :
    (accept_swap exRotation (daysFromCivil 2025 12 8) 2 2).1 = SwapOutcome.accepted ∧
    lookupAL (daysFromCivil 2025 12 8)
      (accept_swap exRotation (daysFromCivil 2025 12 8) 2 2).2.overrides = some 2 ∧
    lookupAL 2 (accept_swap exRotation (daysFromCivil 2025 12 8) 2 2).2.penalties =
      some 1 := by
  have h := self_volunteer_accepted exRotation (daysFromCivil 2025 12 8) 2
    (by decide) (by decide)
  refine ⟨h.1, h.2.1, ?_⟩
  simpa using h.2.2

end DormDuty
